import Mathlib

/-!
Verification development for the Tsunami-Orchestrator scanning engine
(src/orch_library.py).  The Python functions are shallowly embedded as
executable Lean definitions: strings are lists of characters, the external
process invocations (nmap, the tsunami java process) are abstracted into
inductive result types enumerating exactly the outcomes the Python
try/except structure distinguishes, and the thread-pool scheduler is a
small-step transition relation.  Theorems at the end settle the spec
claims against these definitions.
-/

namespace Tsunami

/-! ### Text primitives

Mirrors of the Python string operations used by orch_library.py, over
lists of characters. -/

/-- Python whitespace, as recognized by str.split() and str.strip()
with no arguments. -/
def pySpace (c : Char) : Bool :=
  c == ' ' || c == '\t' || c == '\n' || c == '\r' || c == '\x0b' || c == '\x0c'

/-- Character-list version of "pat is a leading segment of s". -/
def isPre : List Char → List Char → Bool
  | [], _ => true
  | _ :: _, [] => false
  | a :: as, b :: bs => a == b && isPre as bs

/-- Python substring containment, the expression pat in s. -/
def containsSub (pat : List Char) : List Char → Bool
  | [] => isPre pat []
  | c :: cs => isPre pat (c :: cs) || containsSub pat cs

/-- Worker for pySplit; cur holds the characters of the token being
built, in reverse. -/
def pySplitAux : List Char → List Char → List (List Char)
  | [], cur => if cur.isEmpty then [] else [cur.reverse]
  | c :: cs, cur =>
    if pySpace c then
      if cur.isEmpty then pySplitAux cs [] else cur.reverse :: pySplitAux cs []
    else pySplitAux cs (c :: cur)

/-- Python str.split() with no arguments: split on runs of whitespace,
producing no empty tokens. -/
def pySplit (s : List Char) : List (List Char) := pySplitAux s []

/-- Python str.split(sep) for a one-character separator: empty pieces are
kept, and the result is never the empty list. -/
def splitOnChar (sep : Char) : List Char → List (List Char)
  | [] => [[]]
  | c :: cs =>
    let rest := splitOnChar sep cs
    if c == sep then [] :: rest
    else
      match rest with
      | [] => [[c]]
      | r :: rs => (c :: r) :: rs

/-- Python str.strip(ch): remove every leading and trailing copy of ch. -/
def stripChar (ch : Char) (s : List Char) : List Char :=
  ((s.dropWhile (· == ch)).reverse.dropWhile (· == ch)).reverse

/-- Python ch in s for a single character ch. -/
def containsChar (ch : Char) (s : List Char) : Bool := s.any (· == ch)

/-- Python str.strip() with no arguments: trim whitespace at both ends. -/
def pyStrip (s : List Char) : List Char :=
  ((s.dropWhile pySpace).reverse.dropWhile pySpace).reverse

/-! ### Liveness-probe output parsing

Embeds the two nmap-output parsing loops of orch_library.py: the
single-target loop of scan_subnet_and_save_results (lines 401-408) and
the batch loop of scan_multiple_subnets_manager (lines 504-511).
A probe output is modelled as the list of its lines, each a character
list; splitting the raw output into lines (Python str.splitlines) is
taken as given. -/

/-- The fixed marker recognizing an announcement line. -/
def reportMarker : List Char := "Nmap scan report for".toList

/-- The fixed marker recognizing a liveness confirmation line. -/
def hostUpMarker : List Char := "Host is up".toList

/-- Python line.split()[-1].  The default is never taken on a line that
contains the report marker, since such a line has a non-whitespace
character and so splits into at least one token. -/
def lastToken (line : List Char) : List Char := (pySplit line).getLastD []

/-- Mirror of the token clean-up applied to an announced address:
if "(" in ip: ip = ip.split("(")[-1].strip(")").  A token without a
parenthesis is kept verbatim. -/
def canonicalizeTok (tok : List Char) : List Char :=
  if containsChar '(' tok then stripChar ')' ((splitOnChar '(' tok).getLastD [])
  else tok

/-- The address recorded from an announcement line:
ip = line.split()[-1], then the parenthesis clean-up. -/
def extractIp (line : List Char) : List Char := canonicalizeTok (lastToken line)

/-- The test "Nmap scan report for" in line. -/
def isReportLine (line : List Char) : Bool := containsSub reportMarker line

/-- The test "Host is up" in line. -/
def isHostUpLine (line : List Char) : Bool := containsSub hostUpMarker line

/-- One iteration of the single-target parsing loop
(scan_subnet_and_save_results): every announcement line adds its address
to the set of active hosts, with no confirmation required.  The Python
set is modelled as a list with membership-tested insertion. -/
def singleParseStep (acc : List (List Char)) (line : List Char) : List (List Char) :=
  if isReportLine line then acc.insert (extractIp line) else acc

/-- The single-target parsing loop over a whole report. -/
def singleParse (lines : List (List Char)) : List (List Char) :=
  lines.foldl singleParseStep []

/-- State of the batch parsing loop: the current candidate address
(current_ip, None initially and after each confirmation) and the set of
active hosts accumulated so far. -/
abbrev BatchState := Option (List Char) × List (List Char)

/-- Python truthiness of current_ip: None and the empty string are falsy,
any other string is truthy. -/
def truthyOpt : Option (List Char) → Bool
  | none => false
  | some s => !s.isEmpty

/-- One iteration of the batch parsing loop (scan_multiple_subnets_manager):
an announcement overwrites the candidate; a confirmation line (that is not
itself an announcement, because of the elif) adds the candidate, when
truthy, and resets it; any other line is ignored. -/
def batchParseStep : BatchState → List Char → BatchState
  | (cur, acc), line =>
    if isReportLine line then (some (extractIp line), acc)
    else if isHostUpLine line && truthyOpt cur then (none, acc.insert (cur.getD []))
    else (cur, acc)

/-- The batch parsing loop over a whole report, started with no candidate
and an empty set. -/
def batchParse (lines : List (List Char)) : List (List Char) :=
  (lines.foldl batchParseStep (none, [])).2

/-- A report contains, before any announcement line, a confirmation line
(one with the host-up marker and without the report marker): a pending
candidate entering this report gets added. -/
def ConfirmFirst (lines : List (List Char)) : Prop :=
  ∃ pre l post,
    lines = pre ++ l :: post ∧
    (∀ m ∈ pre, isReportLine m = false) ∧
    isReportLine l = false ∧ isHostUpLine l = true

/-- Address a is batch-confirmed in a report: some announcement line
announcing a is followed, with no announcement line in between, by a
confirmation line. -/
def BatchConfirmed (lines : List (List Char)) (a : List Char) : Prop :=
  ∃ pre l₁ mid l₂ post,
    lines = pre ++ l₁ :: mid ++ l₂ :: post ∧
    isReportLine l₁ = true ∧ extractIp l₁ = a ∧
    (∀ m ∈ mid, isReportLine m = false) ∧
    isReportLine l₂ = false ∧ isHostUpLine l₂ = true

/-! ### Single-target probe execution (scan_subnet_and_save_results)

The subprocess.run call (with check=True) and its surrounding try/except
are abstracted into an inductive enumerating exactly the cases the Python
handlers distinguish.  Because check=True raises CalledProcessError on a
non-zero exit, a normal return always carries exit status 0 and the
decoded, line-split standard output. -/

/-- Possible outcomes of the nmap invocation in
scan_subnet_and_save_results, one constructor per Python control path. -/
inductive ProbeExec where
  | ok (output : List (List Char))
  | fileNotFound
  | permissionError
  | unicodeDecodeError
  | calledProcessError (code : Int)
  | otherError
deriving DecidableEq

/-- The error classes reported by the single-target prober, one per
except branch of scan_subnet_and_save_results. -/
inductive ProbeErr where
  | toolNotFound
  | permissionDenied
  | outputDecodeError
  | toolExecutionError (code : Int)
  | unknown
deriving DecidableEq

/-- Embedding of scan_subnet_and_save_results: on success the parsed list
of active hosts and no error; every except branch prints one error message
(modelled by the ProbeErr value) and returns the empty list. -/
def scan_subnet_and_save_results (r : ProbeExec) : List (List Char) × Option ProbeErr :=
  match r with
  | .ok output => (singleParse output, none)
  | .fileNotFound => ([], some .toolNotFound)
  | .permissionError => ([], some .permissionDenied)
  | .unicodeDecodeError => ([], some .outputDecodeError)
  | .calledProcessError c => ([], some (.toolExecutionError c))
  | .otherError => ([], some .unknown)

/-- Embedding of the return code of subnet_scan_manager: an empty result
list (no active host, or any probe error) yields -4; otherwise the
containers are started and 0 is returned. -/
def subnet_scan_manager (r : ProbeExec) : Int :=
  if (scan_subnet_and_save_results r).1.isEmpty then -4 else 0

/-! ### Per-host scan job body (run_container)

The java/TsunamiCli invocation inside start_docker_containers, again with
subprocess.run(check=True).  The except clauses appear in source order
FileNotFoundError, PermissionError, CalledProcessError, OSError,
Exception; the inductive below has one constructor per reachable case, so
the Python dispatch order is already resolved. -/

/-- Outcome of the external scan process launch for one host. -/
inductive RunExec where
  | completed (returncode : Int)
  | fileNotFound
  | permissionError
  | calledProcessError (code : Int)
  | osError
  | otherError
deriving DecidableEq

/-- Console messages printed by run_container; the exit code of a failed
tool run is embedded in the message text (an f-string on e.returncode) and
is therefore carried by the corresponding constructor. -/
inductive ConsoleMsg where
  | startingContainer (ip : List Char)
  | containerSuccess (ip : List Char)
  | containerError (ip : List Char)
  | javaNotFound
  | insufficientPermissions (ip : List Char)
  | returnedExitCode (code : Int) (ip : List Char)
  | systemError (ip : List Char)
  | unexpectedError (ip : List Char)
deriving DecidableEq

/-- The flag_sim = True branch of run_container: return code and the
sequence of console messages. -/
def run_container_sim (ip : List Char) (r : RunExec) : Int × List ConsoleMsg :=
  match r with
  | .completed rc =>
    if rc == 0 then (0, [.startingContainer ip, .containerSuccess ip])
    else (-2, [.startingContainer ip, .containerError ip])
  | .fileNotFound => (-3, [.startingContainer ip, .javaNotFound])
  | .permissionError => (-4, [.startingContainer ip, .insufficientPermissions ip])
  | .calledProcessError c => (-5, [.startingContainer ip, .returnedExitCode c ip])
  | .osError => (-6, [.startingContainer ip, .systemError ip])
  | .otherError => (-2, [.startingContainer ip, .unexpectedError ip])

/-- The flag_sim = False branch of run_container: identical control flow;
the rich colour markup around the message text is presentation only and is
not modelled. -/
def run_container_rich (ip : List Char) (r : RunExec) : Int × List ConsoleMsg :=
  match r with
  | .completed rc =>
    if rc == 0 then (0, [.startingContainer ip, .containerSuccess ip])
    else (-2, [.startingContainer ip, .containerError ip])
  | .fileNotFound => (-3, [.startingContainer ip, .javaNotFound])
  | .permissionError => (-4, [.startingContainer ip, .insufficientPermissions ip])
  | .calledProcessError c => (-5, [.startingContainer ip, .returnedExitCode c ip])
  | .osError => (-6, [.startingContainer ip, .systemError ip])
  | .otherError => (-2, [.startingContainer ip, .unexpectedError ip])

/-- run_container, dispatching on flag_sim exactly as the Python if does. -/
def run_container (ip : List Char) (flag_sim : Bool) (r : RunExec) : Int × List ConsoleMsg :=
  if flag_sim then run_container_sim ip r else run_container_rich ip r

/-! ### Bounded worker pool (start_docker_containers)

ThreadPoolExecutor(max_workers=max_containers) with one submitted job per
element of ip_list is modelled as a small-step transition system: a state
holds the hosts not yet started (in submission order), the hosts whose job
is currently running, and the hosts whose job has reached a terminal
state.  The executor semantics is captured by the two rules: a pending job
may start only while fewer than the limit are running, and any running job
may finish. -/

/-- A state of the worker pool. -/
structure PoolState where
  pending : List (List Char)
  running : List (List Char)
  finished : List (List Char)
deriving DecidableEq

/-- One scheduling step of the pool with concurrency limit L. -/
inductive PoolStep (L : ℕ) : PoolState → PoolState → Prop where
  | start (h : List Char) (rest run fin : List (List Char)) :
      run.length < L →
      PoolStep L ⟨h :: rest, run, fin⟩ ⟨rest, h :: run, fin⟩
  | finish (h : List Char) (pend run₁ run₂ fin : List (List Char)) :
      PoolStep L ⟨pend, run₁ ++ h :: run₂, fin⟩ ⟨pend, run₁ ++ run₂, h :: fin⟩

/-- States reachable by the pool run on host list ips with limit L,
starting from the state where every job is pending. -/
inductive PoolReachable (ips : List (List Char)) (L : ℕ) : PoolState → Prop where
  | init : PoolReachable ips L ⟨ips, [], []⟩
  | step {s t : PoolState} :
      PoolReachable ips L s → PoolStep L s t → PoolReachable ips L t

/-! ### Completion drain loop (start_docker_containers)

The for future in as_completed(...) loop.  The order in which futures
complete is non-deterministic, so the loop is modelled as a function of an
arbitrary completion-ordered list of (host, observation) pairs, one entry
per submitted job.  Each observation is what future.result() yields: a
return value, or one of the exception classes the loop catches.  Both the
flag_sim branch (completed counter plus a printed line) and the rich
branch (progress.update(task, advance=1)) increment the progress exactly
once per iteration, in the finally block; the emissions below model that
shared structure. -/

/-- What observing one future yields in the drain loop. -/
inductive FutureObs where
  | ok (code : Int)
  | timeout
  | cancelled
  | exn
deriving DecidableEq

/-- Observable events of the drain loop: an error note for one host
(printed in the body or in an except arm) or a progress tick carrying the
completion count after the increment. -/
inductive ProgressEmission where
  | errorNote (ip : List Char)
  | tick (completed : ℕ)
deriving DecidableEq

/-- Messages printed for one observed future before its finally block: a
non-zero return value and each caught exception produce one error note; a
zero return value produces none. -/
def observeNote (ip : List Char) : FutureObs → List ProgressEmission
  | .ok code => if code ≠ 0 then [.errorNote ip] else []
  | .timeout => [.errorNote ip]
  | .cancelled => [.errorNote ip]
  | .exn => [.errorNote ip]

/-- The drain loop from a given completion count. -/
def drainAux : ℕ → List (List Char × FutureObs) → ℕ × List ProgressEmission
  | completed, [] => (completed, [])
  | completed, (ip, o) :: rest =>
    let res := drainAux (completed + 1) rest
    (res.1, observeNote ip o ++ .tick (completed + 1) :: res.2)

/-- The whole drain loop, starting with completed = 0. -/
def drain (obs : List (List Char × FutureObs)) : ℕ × List ProgressEmission :=
  drainAux 0 obs

/-- Is an emission a progress tick. -/
def isTick : ProgressEmission → Bool
  | .tick _ => true
  | .errorNote _ => false

/-! ### Path validity check (check_path_validity)

Paths are modelled at the component level: an absolute path is the list of
its components from the filesystem root, which is exactly the granularity
at which os.path.commonpath compares its arguments.  A user-supplied path
is a flag saying whether it is absolute plus its components, which may
include "." and ".." entries; os.path.abspath(p) is
normpath(join(cwd, p)).  The filesystem is a pair of oracles for
os.path.exists and os.path.isfile, queried on the resolved path. -/

/-- A path as supplied to check_path_validity. -/
structure PyPath where
  absolute : Bool
  comps : List String
deriving DecidableEq

/-- One step of os.path.normpath component processing on an absolute
path: "." and empty components vanish, ".." removes the previous
component (and stays at the root when there is none). -/
def normStep (acc : List String) (c : String) : List String :=
  if c = "." ∨ c = "" then acc
  else if c = ".." then acc.dropLast
  else acc ++ [c]

/-- os.path.normpath on the component list of an absolute path. -/
def normComps (cs : List String) : List String := cs.foldl normStep []

/-- os.path.abspath: join with the current directory when relative, then
normalize. -/
def pyAbspath (cwd : List String) (p : PyPath) : List String :=
  normComps (if p.absolute then p.comps else cwd ++ p.comps)

/-- The longest common leading segment of two component lists, which is
what os.path.commonpath returns on two absolute paths. -/
def commonPre : List String → List String → List String
  | a :: as, b :: bs => if a = b then a :: commonPre as bs else []
  | _, _ => []

/-- Leading-segment relation on component lists, the meaning of "the
resolved path lies inside the directory". -/
def UnderDir (d a : List String) : Prop := ∃ t, d ++ t = a

/-- Verdicts of check_path_validity; the Python function returns a bool
and distinguishes the two failures only by the printed message. -/
inductive PathCheckResult where
  | accepted
  | notAFile
  | traversal
deriving DecidableEq

/-- Embedding of check_path_validity: the common path of the input_files
directory and the absolute form of the file path must be the input_files
directory itself (the Python trailing-slash adjustment is the identity at
component level); only then are the existence and regular-file oracles
consulted.  The Python code queries them on the original path string,
which names the same file as its absolute form. -/
def check_path_validity (fexists isfile : List String → Bool)
    (cwd base : List String) (fp : PyPath) : PathCheckResult :=
  let inputDir := base ++ ["input_files"]
  let absFp := pyAbspath cwd fp
  if commonPre inputDir absFp = inputDir then
    if fexists absFp && isfile absFp then .accepted else .notAFile
  else .traversal

/-! ### Address and subnet validation (validate_ip, validate_subnet)

The ipaddress calls are embedded for their IPv4 fragment: dotted-quad
literals with an optional numeric prefix length, which is the grammar all
claims exercise (IPv6 literals and netmask-style prefixes are outside the
model).  Python (3.9+) octet rules: one to three ASCII digits, no leading
zero except "0" itself, value at most 255. -/

/-- Parse one dotted-quad octet. -/
def parseOctet (s : List Char) : Option ℕ :=
  if s.isEmpty then none
  else if !s.all (fun c => c.isDigit) then none
  else if s.length > 3 then none
  else if s.length > 1 && (s.headD '0' == '0') then none
  else
    let v := s.foldl (fun n c => n * 10 + (c.toNat - 48)) 0
    if v ≤ 255 then some v else none

/-- Parse a dotted-quad IPv4 literal into its 32-bit value. -/
def parseIPv4 (s : List Char) : Option ℕ :=
  match splitOnChar '.' s with
  | [a, b, c, d] =>
    match parseOctet a, parseOctet b, parseOctet c, parseOctet d with
    | some x, some y, some z, some w => some (((x * 256 + y) * 256 + z) * 256 + w)
    | _, _, _, _ => none
  | _ => none

/-- Parse a prefix length: non-empty, all digits, value at most 32. -/
def parsePrefixLen (s : List Char) : Option ℕ :=
  if s.isEmpty then none
  else if !s.all (fun c => c.isDigit) then none
  else
    let v := s.foldl (fun n c => n * 10 + (c.toNat - 48)) 0
    if v ≤ 32 then some v else none

/-- An IPv4 network value: network address (host bits cleared) and prefix
length. -/
structure IPv4Net where
  addr : ℕ
  prefixLen : ℕ
deriving DecidableEq

/-- Clear the host bits of an address for a given prefix length, which is
what ip_network(..., strict=False) does instead of rejecting. -/
def maskOff (addr p : ℕ) : ℕ := addr - addr % 2 ^ (32 - p)

/-- Number of addresses of a network (IPv4Network.num_addresses). -/
def numAddresses (n : IPv4Net) : ℕ := 2 ^ (32 - n.prefixLen)

/-- Embedding of validate_ip, ipaddress.ip_address: none models the
ValueError raised on a malformed literal. -/
def validate_ip (s : List Char) : Option ℕ := parseIPv4 s

/-- Embedding of validate_subnet, ipaddress.ip_network(s, strict=False):
a bare address gets the full prefix length; with a slash, the host bits of
the address part are cleared rather than rejected.  none models the
ValueError raised on a malformed literal. -/
def validate_subnet (s : List Char) : Option IPv4Net :=
  match splitOnChar '/' s with
  | [a] => (parseIPv4 a).map (fun ip => ⟨ip, 32⟩)
  | [a, p] =>
    match parseIPv4 a, parsePrefixLen p with
    | some ip, some pl => some ⟨maskOff ip pl, pl⟩
    | _, _ => none
  | _ => none

/-- Decimal rendering of a natural number. -/
def renderNat (n : ℕ) : List Char := Nat.toDigits 10 n

/-- str() of an IPv4 address value. -/
def renderIPv4 (ip : ℕ) : List Char :=
  renderNat (ip / 2 ^ 24 % 256) ++ '.' :: renderNat (ip / 2 ^ 16 % 256)
    ++ '.' :: renderNat (ip / 2 ^ 8 % 256) ++ '.' :: renderNat (ip % 256)

/-- str() of an IPv4Network: address slash prefix length, which is what
the f-string write-back of scan_multiple_subnets_manager renders. -/
def renderNet (n : IPv4Net) : List Char :=
  renderIPv4 n.addr ++ '/' :: renderNat n.prefixLen

/-! ### List-file resolution (scan_multiple_subnets_manager, lines 472-491)

Each stripped line goes through candidate = validate_subnet(ind) or
validate_ip(ind).  Python evaluates validate_subnet first; if it raises
ValueError the or is never completed and validate_ip is not reached, the
except arm prints a diagnostic and the loop continues.  If it returns, the
returned IPv4Network object is truthy (the class defines neither a
boolean conversion nor a length), so the or short-circuits and again
validate_ip is not reached. -/

/-- An entry of host_list: the network returned by validate_subnet or, on
the (dead) fallback, the address returned by validate_ip. -/
inductive Candidate where
  | net (n : IPv4Net)
  | addr (a : ℕ)
deriving DecidableEq

/-- Python truthiness of an IPv4Network object: always true. -/
def netTruthy (_ : IPv4Net) : Bool := true

/-- One line of the validation loop: the resulting candidate (none models
a propagating ValueError, caught by the except arm) together with whether
the validate_ip fallback was evaluated. -/
def lineCandidate (ind : List Char) : Option Candidate × Bool :=
  match validate_subnet ind with
  | none => (none, false)
  | some n =>
    if netTruthy n then (some (.net n), false)
    else ((validate_ip ind).map .addr, true)

/-- str() of a host_list entry, as rendered by the write-back. -/
def renderCandidate : Candidate → List Char
  | .net n => renderNet n
  | .addr a => renderIPv4 a

/-- Observable events of the resolution phase, in program order: a
diagnostic for an invalid line, the write-back of the file, and the nmap
-sn -iL invocation on that same file. -/
inductive ResolveEvent where
  | invalidLineDiag (line : List Char)
  | wroteFile (content : List (List Char))
  | ranNmap
deriving DecidableEq

/-- One iteration of the validation loop: a valid line appends its
candidate to host_list, an invalid line appends a diagnostic event and the
loop continues (the ValueError is caught, never propagated). -/
def resolveFold (st : List Candidate × List ResolveEvent) (line : List Char) :
    List Candidate × List ResolveEvent :=
  let ind := pyStrip line
  match (lineCandidate ind).1 with
  | some c => (st.1 ++ [c], st.2)
  | none => (st.1, st.2 ++ [.invalidLineDiag ind])

/-- The resolution phase of scan_multiple_subnets_manager: validate every
line, deduplicate (list(set(...)), modelled with first-occurrence
deduplication since the set order is unspecified and immaterial), write
the rendered entries back to the same file, then run the scan on it. -/
def resolvePhase (lines : List (List Char)) : List Candidate × List ResolveEvent :=
  let st := lines.foldl resolveFold ([], [])
  let entries := st.1.dedup
  (entries, st.2 ++ [.wroteFile (entries.map renderCandidate), .ranNmap])

/-! ### Manager return codes (zero-live-host outcomes) -/

/-- Possible outcomes of the batch nmap invocation in
scan_multiple_subnets_manager, plus whether its standard error output was
empty when it returned. -/
inductive BatchExec where
  | ok (stderrEmpty : Bool) (output : List (List Char))
  | fileNotFound
  | permissionError
  | unicodeDecodeError
  | calledProcessError (code : Int)
  | otherError
deriving DecidableEq

/-- Return code of scan_multiple_subnets_manager after resolution: any
stderr output or raised error yields a negative code; otherwise the hosts
are parsed and the function returns 0 whether or not any active host was
found (the empty branch only prints "No active IP addresses found."
before reaching return 0). -/
def scan_multiple_subnets_manager_ret (r : BatchExec) : Int :=
  match r with
  | .ok stderrEmpty output =>
    if !stderrEmpty then -3
    else
      let active := batchParse output
      if active.isEmpty then 0 else 0
  | .fileNotFound => -3
  | .permissionError => -3
  | .unicodeDecodeError => -3
  | .calledProcessError _ => -3
  | .otherError => -5

/-- Return code of scan_ip_list_manager as a function of the validated
input list and of which addresses answer the probe: an empty input list
yields -4 before any probing; a non-empty list none of whose addresses are
active yields -5; otherwise the containers are started and 0 returned.
The deduplication mirrors active_ips = list(set(active_ips)). -/
def scan_ip_list_manager (ipList : List (List Char)) (alive : List Char → Bool) : Int :=
  if ipList.isEmpty then -4
  else if ((ipList.filter alive).dedup).isEmpty then -5
  else 0

/-! ### Theorems -/

/-- C4: run_container classifies the process result exactly as: exit code
0 to 0 (success); missing tool binary to -3 (tool not found); permission
error to -4 (permission denied); non-zero exit, surfaced by check=True as
CalledProcessError, to -5 with the exit code carried in the printed
message; OS-level launch failure to -6 (system error); any other
unexpected failure to -2 (unknown).  The six codes are pairwise distinct
and, under the check=True guarantee that a normal return carries exit
status 0, every run yields exactly one of them, in either presentation
mode. -/
theorem run_container_classification :
    (∀ ip flag, (run_container ip flag (.completed 0)).1 = 0) ∧
    (∀ ip flag, (run_container ip flag .fileNotFound).1 = -3) ∧
    (∀ ip flag, (run_container ip flag .permissionError).1 = -4) ∧
    (∀ ip flag c, (run_container ip flag (.calledProcessError c)).1 = -5 ∧
      ConsoleMsg.returnedExitCode c ip ∈ (run_container ip flag (.calledProcessError c)).2) ∧
    (∀ ip flag, (run_container ip flag .osError).1 = -6) ∧
    (∀ ip flag, (run_container ip flag .otherError).1 = -2) ∧
    (([0, -3, -4, -5, -6, -2] : List Int).Nodup ∧
      ∀ ip flag r, (∀ rc, r = .completed rc → rc = 0) →
        (run_container ip flag r).1 ∈ ([0, -3, -4, -5, -6, -2] : List Int)) := by
  refine ⟨?_, ?_, ?_, ?_, ?_, ?_, by decide, ?_⟩
  · intro ip flag; cases flag <;> rfl
  · intro ip flag; cases flag <;> rfl
  · intro ip flag; cases flag <;> rfl
  · intro ip flag c
    cases flag <;>
      exact ⟨rfl, by simp [run_container, run_container_sim, run_container_rich]⟩
  · intro ip flag; cases flag <;> rfl
  · intro ip flag; cases flag <;> rfl
  · intro ip flag r h
    cases r with
    | completed rc =>
      have h0 : rc = 0 := h rc rfl
      subst h0
      cases flag <;> simp [run_container, run_container_sim, run_container_rich]
    | fileNotFound => cases flag <;> simp [run_container, run_container_sim, run_container_rich]
    | permissionError => cases flag <;> simp [run_container, run_container_sim, run_container_rich]
    | calledProcessError c =>
      cases flag <;> simp [run_container, run_container_sim, run_container_rich]
    | osError => cases flag <;> simp [run_container, run_container_sim, run_container_rich]
    | otherError => cases flag <;> simp [run_container, run_container_sim, run_container_rich]

/-- Witness for run_container_classification: the hypothesis of its last
conjunct discharged at a concrete failed run. -/
theorem run_container_classification_witness :
    (run_container (['1', '0', '.', '0', '.', '0', '.', '5']) true (.calledProcessError 7)).1
      ∈ ([0, -3, -4, -5, -6, -2] : List Int) :=
  run_container_classification.2.2.2.2.2.2.2
    (['1', '0', '.', '0', '.', '0', '.', '5']) true (.calledProcessError 7)
    (fun _ h => nomatch h)

/-- C7: every failure of the single-target liveness probe (tool missing,
permission denied, undecodable output, non-zero tool exit, or any other
unexpected error) makes scan_subnet_and_save_results return the empty
host list together with a reported error of the matching kind; a partial
set is never returned. -/
theorem probe_failures_degrade :
    scan_subnet_and_save_results .fileNotFound = ([], some .toolNotFound) ∧
    (∀ c, scan_subnet_and_save_results (.calledProcessError c)
      = ([], some (.toolExecutionError c))) ∧
    scan_subnet_and_save_results .unicodeDecodeError = ([], some .outputDecodeError) ∧
    (∀ r : ProbeExec, (∀ out, r ≠ .ok out) →
      (scan_subnet_and_save_results r).1 = [] ∧
        (scan_subnet_and_save_results r).2.isSome = true) := by
  refine ⟨rfl, fun c => rfl, rfl, ?_⟩
  intro r h
  cases r with
  | ok out => exact absurd rfl (h out)
  | fileNotFound => exact ⟨rfl, rfl⟩
  | permissionError => exact ⟨rfl, rfl⟩
  | unicodeDecodeError => exact ⟨rfl, rfl⟩
  | calledProcessError c => exact ⟨rfl, rfl⟩
  | otherError => exact ⟨rfl, rfl⟩

/-- Witness for probe_failures_degrade: its last conjunct at the
tool-missing failure. -/
theorem probe_failures_degrade_witness :
    (scan_subnet_and_save_results .fileNotFound).1 = [] ∧
      (scan_subnet_and_save_results .fileNotFound).2.isSome = true :=
  probe_failures_degrade.2.2.2 .fileNotFound (fun _ h => nomatch h)

/-- C5 counterexample: in subnet-list mode a run whose batch probe finds
zero live hosts returns 0 from scan_multiple_subnets_manager, the very
code a run with live hosts returns, so the zero-host outcome is not a
distinct status in every scan mode. -/
theorem snl_zero_hosts_counterexample :
    scan_multiple_subnets_manager_ret (.ok true []) = 0 ∧
    batchParse ["Nmap scan report for 10.0.0.5".toList,
        "Host is up (0.00050s latency).".toList] ≠ [] ∧
    scan_multiple_subnets_manager_ret
      (.ok true ["Nmap scan report for 10.0.0.5".toList,
        "Host is up (0.00050s latency).".toList]) = 0 := by
  refine ⟨rfl, ?_, ?_⟩ <;> decide

/-- C5 amended: a run that finds zero live hosts yields a distinct
negative code in single-subnet mode (-4) and in IP-list mode (-5), both
different from the success code 0, but in subnet-list mode the run
returns the success code 0 (the zero-host case only prints a message
before the final return 0). -/
theorem zero_live_hosts_outcomes :
    (∀ r : ProbeExec, (scan_subnet_and_save_results r).1 = [] →
      subnet_scan_manager r = -4) ∧
    (∀ ipList alive, ipList ≠ [] → (ipList.filter alive).dedup = [] →
      scan_ip_list_manager ipList alive = -5) ∧
    ((-4 : Int) ≠ 0 ∧ (-5 : Int) ≠ 0) ∧
    (∀ output, batchParse output = [] →
      scan_multiple_subnets_manager_ret (.ok true output) = 0) := by
  refine ⟨?_, ?_, by decide, ?_⟩
  · intro r h
    simp [subnet_scan_manager, h]
  · intro ipList alive h1 h2
    simp [scan_ip_list_manager, h1, h2]
  · intro output h
    simp [scan_multiple_subnets_manager_ret, h]

/-- Witness for zero_live_hosts_outcomes, at a failed probe, a one-entry
IP list with no live address, and an empty batch output. -/
theorem zero_live_hosts_outcomes_witness :
    subnet_scan_manager .fileNotFound = -4 ∧
    scan_ip_list_manager [['a']] (fun _ => false) = -5 ∧
    scan_multiple_subnets_manager_ret (.ok true []) = 0 :=
  ⟨zero_live_hosts_outcomes.1 .fileNotFound rfl,
   zero_live_hosts_outcomes.2.1 [['a']] (fun _ => false) (by decide) rfl,
   zero_live_hosts_outcomes.2.2.2 [] rfl⟩

/-- Error notes carry no tick. -/
lemma filter_isTick_observeNote (ip : List Char) (o : FutureObs) :
    (observeNote ip o).filter isTick = [] := by
  cases o with
  | ok c =>
    by_cases h : c = 0 <;> simp [observeNote, isTick, h]
  | timeout => simp [observeNote, isTick]
  | cancelled => simp [observeNote, isTick]
  | exn => simp [observeNote, isTick]

/-- The drain loop increments the completion counter once per observed
future, whatever the observations are. -/
lemma drainAux_count (obs : List (List Char × FutureObs)) :
    ∀ n, (drainAux n obs).1 = n + obs.length := by
  induction obs with
  | nil => intro n; simp [drainAux]
  | cons p rest ih =>
    intro n
    obtain ⟨ip, o⟩ := p
    simp only [drainAux, ih (n + 1), List.length_cons]
    omega

/-- The ticks emitted by the drain loop are exactly one per observed
future, in order, carrying the successive completion counts. -/
lemma drainAux_ticks (obs : List (List Char × FutureObs)) :
    ∀ n, (drainAux n obs).2.filter isTick
      = (List.range obs.length).map (fun i => ProgressEmission.tick (n + 1 + i)) := by
  induction obs with
  | nil => intro n; simp [drainAux]
  | cons p rest ih =>
    intro n
    obtain ⟨ip, o⟩ := p
    simp only [drainAux, List.filter_append, filter_isTick_observeNote, List.nil_append,
      List.filter_cons, List.length_cons]
    rw [show isTick (.tick (n + 1)) = true from rfl]
    simp only [if_true, ih (n + 1)]
    rw [List.range_succ_eq_map, List.map_cons, List.map_map]
    refine congrArg₂ List.cons (by simp) ?_
    refine List.map_congr_left fun i _ => ?_
    simp only [Function.comp_apply]
    congr 1
    omega

/-- C3: the completion drain loop of start_docker_containers emits
exactly one progress update per terminal job, in completion order (the
ticks carry the successive counts 1..N in order), for every mix of
observations including the error paths (timeout, cancellation, unexpected
exception); the completed count at the end equals the number of jobs, so
no job outcome prevents the remaining futures from being drained. -/
theorem drain_progress_spec (obs : List (List Char × FutureObs)) :
    (drain obs).1 = obs.length ∧
    (drain obs).2.filter isTick
      = (List.range obs.length).map (fun i => ProgressEmission.tick (i + 1)) := by
  constructor
  · simpa using drainAux_count obs 0
  · rw [drain, drainAux_ticks obs 0]
    exact List.map_congr_left fun i _ => by congr 1; omega

/-- Invariant of the worker pool: the running multiplicity never exceeds
the limit, and the jobs in flight are exactly the submitted hosts. -/
lemma pool_invariant {ips : List (List Char)} {L : ℕ} {s : PoolState}
    (hreach : PoolReachable ips L s) :
    s.running.length ≤ L ∧
      List.Perm (s.pending ++ s.running ++ s.finished) ips := by
  induction hreach with
  | init => exact ⟨Nat.zero_le L, by simp⟩
  | step hr hstep ih =>
    obtain ⟨ihlen, ihperm⟩ := ih
    cases hstep with
    | start h rest run fin hlt =>
      refine ⟨by simpa using hlt, ?_⟩
      refine List.Perm.trans ?_ ihperm
      simp only [List.cons_append, List.append_assoc]
      exact List.perm_middle
    | finish h pend run₁ run₂ fin =>
      constructor
      · simp only [List.length_append, List.length_cons] at ihlen ⊢
        omega
      · refine List.Perm.trans ?_ ihperm
        simp only [List.append_assoc, List.cons_append]
        refine List.Perm.append_left pend ?_
        refine List.Perm.append_left run₁ ?_
        exact List.perm_middle

/-- C2: for every host list and every limit L, no reachable state of the
worker pool has more than L jobs running at once, and the pool neither
duplicates nor drops jobs: the pending, running and finished jobs of any
reachable state are a permutation of the submitted host list, and on a
duplicate-free host list that job list is itself duplicate-free, so
exactly one job exists per host. -/
theorem pool_respects_limit (ips : List (List Char)) (L : ℕ) (s : PoolState)
    (_hL : 1 ≤ L) (hreach : PoolReachable ips L s) :
    s.running.length ≤ L ∧
    List.Perm (s.pending ++ s.running ++ s.finished) ips ∧
    (ips.Nodup → (s.pending ++ s.running ++ s.finished).Nodup) := by
  obtain ⟨hlen, hperm⟩ := pool_invariant hreach
  exact ⟨hlen, hperm, fun hnd => hperm.nodup_iff.mpr hnd⟩

/-- Witness for pool_respects_limit: the host list with two hosts, limit
1, at the reachable state where the first job has started. -/
theorem pool_respects_limit_witness :
    (PoolState.mk [['b']] [['a']] []).running.length ≤ 1 ∧
    List.Perm ((PoolState.mk [['b']] [['a']] []).pending
      ++ (PoolState.mk [['b']] [['a']] []).running
      ++ (PoolState.mk [['b']] [['a']] []).finished) [['a'], ['b']] ∧
    (([['a'], ['b']] : List (List Char)).Nodup →
      ((PoolState.mk [['b']] [['a']] []).pending
        ++ (PoolState.mk [['b']] [['a']] []).running
        ++ (PoolState.mk [['b']] [['a']] []).finished).Nodup) :=
  pool_respects_limit [['a'], ['b']] 1 (PoolState.mk [['b']] [['a']] []) (by decide)
    (PoolReachable.step PoolReachable.init
      (PoolStep.start ['a'] [['b']] [] [] (by decide)))

/-- Characterization of the validation fold of the resolution phase. -/
lemma resolveFold_spec (lines : List (List Char)) :
    ∀ acc evs, lines.foldl resolveFold (acc, evs)
      = (acc ++ (lines.map pyStrip).filterMap (fun i => (lineCandidate i).1),
         evs ++ ((lines.map pyStrip).filter
            (fun i => ((lineCandidate i).1).isNone)).map ResolveEvent.invalidLineDiag) := by
  induction lines with
  | nil => intro acc evs; simp
  | cons l ls ih =>
    intro acc evs
    rw [List.foldl_cons]
    cases h : (lineCandidate (pyStrip l)).1 with
    | some c =>
      have hstep : resolveFold (acc, evs) l = (acc ++ [c], evs) := by
        simp [resolveFold, h]
      rw [hstep, ih]
      simp [h]
    | none =>
      have hstep : resolveFold (acc, evs) l
          = (acc, evs ++ [.invalidLineDiag (pyStrip l)]) := by
        simp [resolveFold, h]
      rw [hstep, ih]
      simp [h]

/-- C9: the resolution phase of scan_multiple_subnets_manager reads the
file line by line, trims each line, validates it, and yields exactly the
valid entries with duplicates removed; each invalid line produces exactly
one diagnostic event (its ValueError is caught, so invalid lines never
abort the loop), and the validated deduplicated set is written back to
the same file before the scan is invoked: the event trace is the
diagnostics, then the write-back of the rendered entries, then the scan. -/
theorem resolve_phase_spec (lines : List (List Char)) :
    (resolvePhase lines).1
      = ((lines.map pyStrip).filterMap (fun i => (lineCandidate i).1)).dedup ∧
    (resolvePhase lines).1.Nodup ∧
    (resolvePhase lines).2
      = ((lines.map pyStrip).filter
          (fun i => ((lineCandidate i).1).isNone)).map ResolveEvent.invalidLineDiag
        ++ [.wroteFile ((resolvePhase lines).1.map renderCandidate), .ranNmap] := by
  have h := resolveFold_spec lines [] []
  refine ⟨?_, ?_, ?_⟩
  · simp [resolvePhase, h]
  · simp [resolvePhase, h, List.nodup_dedup]
  · simp [resolvePhase, h]

/-- A separator-free list is split into a single piece. -/
lemma splitOnChar_not_contains (sep : Char) (s : List Char)
    (h : containsChar sep s = false) : splitOnChar sep s = [s] := by
  induction s with
  | nil => rfl
  | cons c cs ih =>
    have hc : (c == sep) = false ∧ containsChar sep cs = false := by
      simpa [containsChar] using h
    rw [splitOnChar]
    simp only [hc.1, ih hc.2]
    rfl

/-- C10: because validate_subnet parses with strict=False and an
IPv4Network value is truthy, a bare dotted-quad address line (no slash)
is accepted by the subnet validator as the corresponding one-host /32
network, the write-back renders such an entry in CIDR form with the /32
suffix appended to the address, and the validate_ip fallback of the
candidate expression is never evaluated for any line at all. -/
theorem bare_address_lines (s : List Char) (ip : ℕ)
    (hn : containsChar '/' s = false) (hp : parseIPv4 s = some ip) :
    validate_subnet s = some ⟨ip, 32⟩ ∧
    lineCandidate s = (some (.net ⟨ip, 32⟩), false) ∧
    numAddresses ⟨ip, 32⟩ = 1 ∧
    renderCandidate (.net ⟨ip, 32⟩) = renderIPv4 ip ++ '/' :: ['3', '2'] ∧
    (∀ ind, (lineCandidate ind).2 = false) := by
  have hv : validate_subnet s = some ⟨ip, 32⟩ := by
    rw [validate_subnet, splitOnChar_not_contains '/' s hn]
    simp [hp]
  refine ⟨hv, ?_, rfl, ?_, ?_⟩
  · rw [lineCandidate, hv]
    rfl
  · show renderNet ⟨ip, 32⟩ = renderIPv4 ip ++ '/' :: ['3', '2']
    rw [renderNet]
    congr 1
    show '/' :: renderNat 32 = ['/', '3', '2']
    decide
  · intro ind
    rw [lineCandidate]
    cases validate_subnet ind with
    | none => rfl
    | some n => rfl

/-- Witness for bare_address_lines at the literal 10.0.0.1. -/
theorem bare_address_lines_witness :
    validate_subnet "10.0.0.1".toList = some ⟨167772161, 32⟩ ∧
    lineCandidate "10.0.0.1".toList = (some (.net ⟨167772161, 32⟩), false) ∧
    numAddresses ⟨167772161, 32⟩ = 1 ∧
    renderCandidate (.net ⟨167772161, 32⟩) = renderIPv4 167772161 ++ '/' :: ['3', '2'] ∧
    (∀ ind, (lineCandidate ind).2 = false) :=
  bare_address_lines "10.0.0.1".toList 167772161 (by decide) (by decide)

/-- The common-path computation agrees with the containment meaning: the
common leading segment of d and a is d itself exactly when a lies under
the directory d. -/
lemma commonPre_nil_left (a : List String) : commonPre [] a = [] := by
  cases a <;> rfl

/-- Unfolding equation of commonPre on two equal heads. -/
lemma commonPre_cons_eq (x : String) (xs ys : List String) :
    commonPre (x :: xs) (x :: ys) = x :: commonPre xs ys := by
  rw [commonPre]
  simp

/-- Unfolding equation of commonPre on two distinct heads. -/
lemma commonPre_cons_ne {x y : String} (h : x ≠ y) (xs ys : List String) :
    commonPre (x :: xs) (y :: ys) = [] := by
  rw [commonPre]
  simp [h]

lemma commonPre_eq_iff (d a : List String) : commonPre d a = d ↔ UnderDir d a := by
  induction d generalizing a with
  | nil =>
    rw [commonPre_nil_left]
    simp only [UnderDir]
    constructor
    · intro _; exact ⟨a, rfl⟩
    · intro _; trivial
  | cons x xs ih =>
    cases a with
    | nil =>
      simp only [commonPre, UnderDir]
      constructor
      · intro h; exact absurd h (by simp)
      · rintro ⟨t, ht⟩; exact absurd ht (by simp)
    | cons y ys =>
      by_cases hxy : x = y
      · subst hxy
        rw [commonPre_cons_eq]
        simp only [List.cons.injEq, true_and]
        rw [ih ys]
        simp [UnderDir]
      · rw [commonPre_cons_ne hxy]
        constructor
        · intro h; exact absurd h.symm (by simp)
        · rintro ⟨t, ht⟩
          simp only [List.cons_append, List.cons.injEq] at ht
          exact absurd ht.1 hxy

/-- C6: for every path whose absolute normalized form lies outside the
input_files directory (including traversal forms such as ../../etc/passwd)
check_path_validity answers path-traversal, and it does so identically for
every filesystem, so the verdict is reached without consulting (let alone
reading) the target file and does not depend on whether it exists; for a
path whose absolute form lies under the directory, the check accepts
exactly when the file exists and is a regular file. -/
theorem check_path_validity_spec (fexists isfile : List String → Bool)
    (cwd base : List String) (fp : PyPath) :
    (¬ UnderDir (base ++ ["input_files"]) (pyAbspath cwd fp) →
      (check_path_validity fexists isfile cwd base fp = .traversal ∧
        ∀ e2 i2, check_path_validity e2 i2 cwd base fp = .traversal)) ∧
    (UnderDir (base ++ ["input_files"]) (pyAbspath cwd fp) →
      (check_path_validity fexists isfile cwd base fp = .accepted ↔
        fexists (pyAbspath cwd fp) = true ∧ isfile (pyAbspath cwd fp) = true)) := by
  by_cases hc : commonPre (base ++ ["input_files"]) (pyAbspath cwd fp)
      = base ++ ["input_files"]
  · refine ⟨fun hout => absurd ((commonPre_eq_iff _ _).mp hc) hout, fun _ => ?_⟩
    cases hfe : fexists (pyAbspath cwd fp) <;>
      cases hfi : isfile (pyAbspath cwd fp) <;>
        simp [check_path_validity, hc, hfe, hfi]
  · constructor
    · intro _
      constructor
      · simp [check_path_validity, hc]
      · intro e2 i2
        simp [check_path_validity, hc]
    · intro hin
      exact absurd ((commonPre_eq_iff _ _).mpr hin) hc

/-- Witness for check_path_validity_spec: the relative path
../../etc/passwd, whose absolute form escapes the input directory, is
rejected as traversal under every filesystem oracle; a plain file name
under input_files is accepted exactly when the oracles say it is an
existing regular file. -/
theorem check_path_validity_spec_witness :
    (check_path_validity (fun _ => true) (fun _ => true)
        ["home", "orch"] ["home", "orch"]
        (PyPath.mk false ["..", "..", "etc", "passwd"]) = .traversal ∧
      ∀ e2 i2, check_path_validity e2 i2 ["home", "orch"] ["home", "orch"]
        (PyPath.mk false ["..", "..", "etc", "passwd"]) = .traversal) ∧
    (check_path_validity (fun _ => true) (fun _ => true)
        ["home", "orch"] ["home", "orch"]
        (PyPath.mk false ["input_files", "subnets.txt"]) = .accepted ↔
      (fun _ => true) (pyAbspath ["home", "orch"]
          (PyPath.mk false ["input_files", "subnets.txt"])) = true ∧
        (fun _ => true) (pyAbspath ["home", "orch"]
          (PyPath.mk false ["input_files", "subnets.txt"])) = true) :=
  ⟨(check_path_validity_spec (fun _ => true) (fun _ => true)
      ["home", "orch"] ["home", "orch"]
      (PyPath.mk false ["..", "..", "etc", "passwd"])).1
      (fun hu => absurd ((commonPre_eq_iff _ _).mpr hu) (by decide)),
   (check_path_validity_spec (fun _ => true) (fun _ => true)
      ["home", "orch"] ["home", "orch"]
      (PyPath.mk false ["input_files", "subnets.txt"])).2
      ⟨["subnets.txt"], by decide⟩⟩

/-- Membership in the single-target parsing fold. -/
lemma mem_foldl_singleParseStep (lines : List (List Char)) :
    ∀ acc a, a ∈ lines.foldl singleParseStep acc ↔
      a ∈ acc ∨ ∃ l, l ∈ lines ∧ isReportLine l = true ∧ extractIp l = a := by
  induction lines with
  | nil => intro acc a; simp
  | cons l ls ih =>
    intro acc a
    rw [List.foldl_cons]
    by_cases hr : isReportLine l = true
    · rw [show singleParseStep acc l = acc.insert (extractIp l) from by
        simp [singleParseStep, hr]]
      rw [ih]
      rw [List.mem_insert_iff]
      constructor
      · rintro ((rfl | ha) | ⟨m, hm, hmr, hme⟩)
        · exact Or.inr ⟨l, List.mem_cons_self l ls, hr, rfl⟩
        · exact Or.inl ha
        · exact Or.inr ⟨m, List.mem_cons_of_mem l hm, hmr, hme⟩
      · rintro (ha | ⟨m, hm, hmr, hme⟩)
        · exact Or.inl (Or.inr ha)
        · rcases List.mem_cons.mp hm with rfl | hm
          · exact Or.inl (Or.inl hme.symm)
          · exact Or.inr ⟨m, hm, hmr, hme⟩
    · rw [show singleParseStep acc l = acc from by simp [singleParseStep, hr]]
      rw [ih]
      constructor
      · rintro (ha | ⟨m, hm, hmr, hme⟩)
        · exact Or.inl ha
        · exact Or.inr ⟨m, List.mem_cons_of_mem l hm, hmr, hme⟩
      · rintro (ha | ⟨m, hm, hmr, hme⟩)
        · exact Or.inl ha
        · rcases List.mem_cons.mp hm with rfl | hm
          · exact absurd hmr hr
          · exact Or.inr ⟨m, hm, hmr, hme⟩

/-- Splitting off the head of a character containment test. -/
lemma containsChar_cons_false {c x : Char} {xs : List Char}
    (h : containsChar c (x :: xs) = false) :
    (x == c) = false ∧ containsChar c xs = false := by
  rw [containsChar, List.any_cons] at h
  constructor
  · cases hxc : x == c
    · rfl
    · rw [hxc, Bool.true_or] at h
      exact Bool.noConfusion h
  · cases hcs : containsChar c xs
    · rfl
    · rw [containsChar] at hcs
      rw [hcs, Bool.or_true] at h
      exact Bool.noConfusion h

/-- A membership-free run of dropWhile. -/
lemma dropWhile_beq_of_not_contains (c : Char) (s : List Char)
    (h : containsChar c s = false) : s.dropWhile (· == c) = s := by
  cases s with
  | nil => rfl
  | cons x xs =>
    obtain ⟨hx, -⟩ := containsChar_cons_false h
    simp [List.dropWhile_cons, hx]

/-- Stripping a single trailing copy of c from a c-free list. -/
lemma stripChar_append (c : Char) (ip : List Char)
    (h : containsChar c ip = false) : stripChar c (ip ++ [c]) = ip := by
  cases ip with
  | nil => simp [stripChar, List.dropWhile]
  | cons x xs =>
    obtain ⟨hx, hxs⟩ := containsChar_cons_false h
    have hrev : containsChar c (xs.reverse ++ [x]) = false := by
      rw [containsChar, List.any_append, List.any_reverse, List.any_cons, List.any_nil]
      rw [containsChar] at hxs
      rw [hxs, hx]
      rfl
    rw [stripChar, List.cons_append, List.dropWhile_cons]
    rw [hx]
    simp only [Bool.false_eq_true, if_false]
    rw [List.reverse_cons, List.reverse_append, List.reverse_cons, List.reverse_nil,
      List.nil_append]
    show ((c :: xs.reverse ++ [x]).dropWhile (· == c)).reverse = x :: xs
    rw [List.cons_append, List.dropWhile_cons]
    simp only [beq_self_eq_true, if_true]
    rw [dropWhile_beq_of_not_contains c _ hrev]
    rw [List.reverse_append, List.reverse_reverse]
    rfl

/-- The parenthesis clean-up recovers the content between the
parentheses of a parenthesized token. -/
lemma canonicalizeTok_paren (ip : List Char)
    (h1 : containsChar '(' ip = false) (h2 : containsChar ')' ip = false) :
    canonicalizeTok ('(' :: (ip ++ [')'])) = ip := by
  have hin : containsChar '(' ('(' :: (ip ++ [')'])) = true := by
    rw [containsChar, List.any_cons]
    simp
  rw [canonicalizeTok, hin]
  simp only [if_true]
  have hsplit : splitOnChar '(' (ip ++ [')']) = [ip ++ [')']] := by
    refine splitOnChar_not_contains '(' (ip ++ [')']) ?_
    rw [containsChar, List.any_append, List.any_cons, List.any_nil]
    rw [containsChar] at h1
    rw [h1]
    rfl
  rw [show splitOnChar '(' ('(' :: (ip ++ [')']))
      = [] :: splitOnChar '(' (ip ++ [')']) from by rw [splitOnChar]; simp]
  rw [hsplit]
  show stripChar ')' (ip ++ [')']) = ip
  exact stripChar_append ')' ip h2

/-- A token without parentheses is recorded verbatim. -/
lemma canonicalizeTok_verbatim (tok : List Char)
    (h : containsChar '(' tok = false) : canonicalizeTok tok = tok := by
  rw [canonicalizeTok, h]
  rfl

/-- Splitting an all-non-whitespace suffix accumulates it into a single
token. -/
lemma pySplitAux_nonspace (t : List Char) :
    t.all (fun c => !pySpace c) = true →
    ∀ cur : List Char, cur ≠ [] ∨ t ≠ [] →
      pySplitAux t cur = [cur.reverse ++ t] := by
  induction t with
  | nil =>
    intro _ cur hne
    have hc : cur ≠ [] := hne.resolve_right (fun h => h rfl)
    rw [pySplitAux]
    rw [show cur.isEmpty = false from by
      cases cur
      · exact absurd rfl hc
      · rfl]
    simp
  | cons c cs ih =>
    intro ht cur _
    rw [List.all_cons, Bool.and_eq_true] at ht
    have hc1 : pySpace c = false := by
      cases hsp : pySpace c
      · rfl
      · rw [hsp] at ht
        exact Bool.noConfusion ht.1
    rw [pySplitAux, hc1]
    simp only [Bool.false_eq_true, if_false]
    rw [ih ht.2 (c :: cur) (Or.inl (List.cons_ne_nil c cur))]
    rw [List.reverse_cons, List.append_assoc]
    rfl

/-- Auxiliary: a some-valued last element survives a cons. -/
lemma getLast?_cons_of_some {α : Type} (x : α) {l : List α} {t : α}
    (h : l.getLast? = some t) : (x :: l).getLast? = some t := by
  cases l with
  | nil => simp at h
  | cons y ys => rw [List.getLast?_cons_cons]; exact h

/-- The last whitespace-separated token of a line ending in one
non-whitespace word is that word. -/
lemma pySplitAux_last (t : List Char) (ht : t.all (fun c => !pySpace c) = true)
    (htne : t ≠ []) (s : List Char) :
    ∀ cur : List Char, (pySplitAux (s ++ ' ' :: t) cur).getLast? = some t := by
  have hbase : pySplitAux t [] = [t] := by
    have := pySplitAux_nonspace t ht [] (Or.inr htne)
    simpa using this
  induction s with
  | nil =>
    intro cur
    rw [List.nil_append, pySplitAux]
    rw [show pySpace ' ' = true from rfl]
    simp only [if_true]
    cases hcur : cur.isEmpty
    · simp only [Bool.false_eq_true, if_false]
      rw [hbase]
      exact getLast?_cons_of_some _ rfl
    · simp only [if_true]
      rw [hbase]
      rfl
  | cons c cs ih =>
    intro cur
    rw [List.cons_append, pySplitAux]
    cases hsp : pySpace c
    · simp only [Bool.false_eq_true, if_false]
      exact ih (c :: cur)
    · simp only [if_true]
      cases hcur : cur.isEmpty
      · simp only [Bool.false_eq_true, if_false]
        exact getLast?_cons_of_some _ (ih [])
      · simp only [if_true]
        exact ih []

/-- lastToken of a line whose final whitespace-separated word is t. -/
lemma lastToken_append (s t : List Char)
    (ht : t.all (fun c => !pySpace c) = true) (htne : t ≠ []) :
    lastToken (s ++ ' ' :: t) = t := by
  rw [lastToken, pySplit, List.getLastD_eq_getLast?, pySplitAux_last t ht htne s []]
  rfl

/-- C8 (amended): in a single-target probe every line carrying the report
marker contributes exactly the address extracted from its last token, with
no confirmation line required (membership in the parsed set is equivalent
to the existence of such a line); when the last token is parenthesized,
the content inside the parentheses is recorded; a token without
parentheses - including a bracketed IPv6-style literal - is recorded
verbatim, brackets kept. -/
theorem single_parse_spec :
    (∀ lines a, a ∈ singleParse lines ↔
      ∃ l, l ∈ lines ∧ isReportLine l = true ∧ extractIp l = a) ∧
    (∀ s ip, ip.all (fun c => !pySpace c) = true → ip ≠ [] →
      containsChar '(' ip = false → containsChar ')' ip = false →
      extractIp (s ++ ' ' :: ('(' :: (ip ++ [')']))) = ip) ∧
    (∀ tok, containsChar '(' tok = false → canonicalizeTok tok = tok) := by
  refine ⟨?_, ?_, canonicalizeTok_verbatim⟩
  · intro lines a
    rw [singleParse, mem_foldl_singleParseStep lines [] a]
    simp
  · intro s ip hall hne h1 h2
    have htok : ('(' :: (ip ++ [')'])).all (fun c => !pySpace c) = true := by
      rw [List.all_cons, List.all_append, hall]
      decide
    rw [extractIp, lastToken_append s ('(' :: (ip ++ [')'])) htok (List.cons_ne_nil _ _)]
    exact canonicalizeTok_paren ip h1 h2

/-- Witness for single_parse_spec: a parenthesized announcement line
yields the address inside the parentheses, and a parenthesis-free token is
kept unchanged. -/
theorem single_parse_spec_witness :
    extractIp ("Nmap scan report for router.lan".toList
      ++ ' ' :: ('(' :: ("10.0.0.5".toList ++ [')']))) = "10.0.0.5".toList ∧
    canonicalizeTok "10.0.0.7".toList = "10.0.0.7".toList :=
  ⟨single_parse_spec.2.1 "Nmap scan report for router.lan".toList "10.0.0.5".toList
      (by decide) (by decide) (by decide) (by decide),
   single_parse_spec.2.2 "10.0.0.7".toList (by decide)⟩

/-- C8 counterexample: on an announcement line whose last token is a
bracketed literal, the parser records the token verbatim with its
brackets, not the content inside the brackets as the claim states. -/
theorem bracket_literal_counterexample :
    "[fe80::1]".toList ∈ singleParse ["Nmap scan report for [fe80::1]".toList] ∧
    "fe80::1".toList ∉ singleParse ["Nmap scan report for [fe80::1]".toList] := by
  constructor <;> decide

/-- Non-emptiness through isEmpty. -/
lemma not_isEmpty_iff_ne_nil (x : List Char) : (!x.isEmpty) = true ↔ x ≠ [] := by
  cases x <;> simp

/-- The empty report confirms nothing. -/
lemma confirmFirst_nil : ¬ ConfirmFirst ([] : List (List Char)) := by
  rintro ⟨pre, l, post, heq, -, -, -⟩
  cases pre <;> simp at heq

/-- The empty report batch-confirms no address. -/
lemma batchConfirmed_nil (a : List Char) : ¬ BatchConfirmed [] a := by
  rintro ⟨pre, l₁, mid, l₂, post, heq, -⟩
  cases pre <;> simp at heq

/-- A leading announcement line kills any pending confirmation. -/
lemma confirmFirst_cons_report {l : List Char} {ls : List (List Char)}
    (h : isReportLine l = true) : ¬ ConfirmFirst (l :: ls) := by
  rintro ⟨pre, x, post, heq, hpre, hx, -⟩
  cases pre with
  | nil =>
    simp only [List.nil_append] at heq
    injection heq with he1 he2
    rw [← he1, h] at hx
    exact Bool.noConfusion hx
  | cons p ps =>
    simp only [List.cons_append] at heq
    injection heq with he1 he2
    have hp := hpre p (List.mem_cons_self p ps)
    rw [← he1, h] at hp
    exact Bool.noConfusion hp

/-- A leading confirmation line confirms immediately. -/
lemma confirmFirst_cons_hostup {l : List Char} {ls : List (List Char)}
    (h1 : isReportLine l = false) (h2 : isHostUpLine l = true) :
    ConfirmFirst (l :: ls) :=
  ⟨[], l, ls, rfl, by simp, h1, h2⟩

/-- An inert leading line neither confirms nor blocks. -/
lemma confirmFirst_cons_other {l : List Char} {ls : List (List Char)}
    (h1 : isReportLine l = false) (h2 : isHostUpLine l = false) :
    ConfirmFirst (l :: ls) ↔ ConfirmFirst ls := by
  constructor
  · rintro ⟨pre, x, post, heq, hpre, hx, hux⟩
    cases pre with
    | nil =>
      simp only [List.nil_append] at heq
      injection heq with he1 he2
      rw [← he1, h2] at hux
      exact Bool.noConfusion hux
    | cons p ps =>
      simp only [List.cons_append] at heq
      injection heq with he1 he2
      exact ⟨ps, x, post, he2, fun m hm => hpre m (List.mem_cons_of_mem p hm), hx, hux⟩
  · rintro ⟨pre, x, post, heq, hpre, hx, hux⟩
    refine ⟨l :: pre, x, post, (by rw [heq]; rfl), ?_, hx, hux⟩
    intro m hm
    rcases List.mem_cons.mp hm with rfl | hm
    · exact h1
    · exact hpre m hm

/-- Peeling a leading announcement line off a batch confirmation: either
this very announcement is the confirmed one (the rest of the report
starts, before any further announcement, with a confirmation line), or
the confirmation lies wholly in the rest. -/
lemma batchConfirmed_cons_report {l : List Char} {ls : List (List Char)} {a : List Char}
    (h : isReportLine l = true) :
    BatchConfirmed (l :: ls) a ↔
      (extractIp l = a ∧ ConfirmFirst ls) ∨ BatchConfirmed ls a := by
  constructor
  · rintro ⟨pre, l₁, mid, l₂, post, heq, h1, h2, hmid, h3, h4⟩
    cases pre with
    | nil =>
      simp only [List.nil_append, List.cons_append] at heq
      injection heq with he1 he2
      rw [he1]
      exact Or.inl ⟨h2, ⟨mid, l₂, post, he2, hmid, h3, h4⟩⟩
    | cons p ps =>
      simp only [List.cons_append] at heq
      injection heq with he1 he2
      exact Or.inr ⟨ps, l₁, mid, l₂, post, he2, h1, h2, hmid, h3, h4⟩
  · rintro (⟨hex, ⟨mid, l₂, post, heq, hmid, h3, h4⟩⟩ |
      ⟨pre, l₁, mid, l₂, post, heq, h1, h2, hmid, h3, h4⟩)
    · exact ⟨[], l, mid, l₂, post, (by rw [heq]; rfl), h, hex, hmid, h3, h4⟩
    · exact ⟨l :: pre, l₁, mid, l₂, post, (by rw [heq]; rfl), h1, h2, hmid, h3, h4⟩

/-- Peeling an inert leading line off a batch confirmation. -/
lemma batchConfirmed_cons_nonreport {l : List Char} {ls : List (List Char)} {a : List Char}
    (h : isReportLine l = false) :
    BatchConfirmed (l :: ls) a ↔ BatchConfirmed ls a := by
  constructor
  · rintro ⟨pre, l₁, mid, l₂, post, heq, h1, h2, hmid, h3, h4⟩
    cases pre with
    | nil =>
      simp only [List.nil_append, List.cons_append] at heq
      injection heq with he1 he2
      rw [← he1, h] at h1
      exact Bool.noConfusion h1
    | cons p ps =>
      simp only [List.cons_append] at heq
      injection heq with he1 he2
      exact ⟨ps, l₁, mid, l₂, post, he2, h1, h2, hmid, h3, h4⟩
  · rintro ⟨pre, l₁, mid, l₂, post, heq, h1, h2, hmid, h3, h4⟩
    exact ⟨l :: pre, l₁, mid, l₂, post, (by rw [heq]; rfl), h1, h2, hmid, h3, h4⟩

/-- Full characterization of the batch parsing fold from an arbitrary
loop state. -/
lemma mem_batchParse_aux (lines : List (List Char)) :
    ∀ (cur : Option (List Char)) (acc : List (List Char)) (a : List Char),
      a ∈ (lines.foldl batchParseStep (cur, acc)).2 ↔
        a ∈ acc ∨
        (truthyOpt cur = true ∧ cur = some a ∧ ConfirmFirst lines) ∨
        (a ≠ [] ∧ BatchConfirmed lines a) := by
  induction lines with
  | nil =>
    intro cur acc a
    rw [List.foldl_nil]
    constructor
    · exact fun h => Or.inl h
    · rintro (h | ⟨-, -, hcf⟩ | ⟨-, hbc⟩)
      · exact h
      · exact absurd hcf confirmFirst_nil
      · exact absurd hbc (batchConfirmed_nil a)
  | cons l ls ih =>
    intro cur acc a
    rw [List.foldl_cons]
    by_cases hr : isReportLine l = true
    · rw [show batchParseStep (cur, acc) l = (some (extractIp l), acc) from by
        simp [batchParseStep, hr]]
      rw [ih, iff_false_intro (confirmFirst_cons_report hr),
        batchConfirmed_cons_report hr]
      constructor
      · rintro (ha | ⟨ht, heq, hcf⟩ | ⟨hane, hbc⟩)
        · exact Or.inl ha
        · have hea : extractIp l = a := Option.some.inj heq
          have hane : a ≠ [] := hea ▸ (not_isEmpty_iff_ne_nil _).mp ht
          exact Or.inr (Or.inr ⟨hane, Or.inl ⟨hea, hcf⟩⟩)
        · exact Or.inr (Or.inr ⟨hane, Or.inr hbc⟩)
      · rintro (ha | ⟨-, -, hfalse⟩ | ⟨hane, ⟨hea, hcf⟩ | hbc⟩)
        · exact Or.inl ha
        · exact hfalse.elim
        · refine Or.inr (Or.inl ⟨?_, (by rw [hea]), hcf⟩)
          show (!(extractIp l).isEmpty) = true
          rw [hea]
          exact (not_isEmpty_iff_ne_nil a).mpr hane
        · exact Or.inr (Or.inr ⟨hane, hbc⟩)
    · have hr' : isReportLine l = false := by
        cases hrr : isReportLine l
        · rfl
        · exact absurd hrr hr
      cases hb : isHostUpLine l && truthyOpt cur with
      | true =>
        have hup : isHostUpLine l = true ∧ truthyOpt cur = true := by
          rw [Bool.and_eq_true] at hb
          exact hb
        obtain ⟨b, rfl⟩ : ∃ b, cur = some b := by
          cases cur with
          | none => exact absurd hup.2 (by simp [truthyOpt])
          | some b => exact ⟨b, rfl⟩
        rw [show batchParseStep (some b, acc) l = (none, acc.insert b) from by
          simp [batchParseStep, hr', hb]]
        rw [ih, List.mem_insert_iff, batchConfirmed_cons_nonreport hr']
        constructor
        · rintro ((rfl | ha) | ⟨ht, -, -⟩ | hrest)
          · exact Or.inr (Or.inl ⟨hup.2, rfl, confirmFirst_cons_hostup hr' hup.1⟩)
          · exact Or.inl ha
          · exact absurd ht (by simp [truthyOpt])
          · exact Or.inr (Or.inr hrest)
        · rintro (ha | ⟨-, hsome, -⟩ | hrest)
          · exact Or.inl (Or.inr ha)
          · exact Or.inl (Or.inl (Option.some.inj hsome).symm)
          · exact Or.inr (Or.inr hrest)
      | false =>
        rw [show batchParseStep (cur, acc) l = (cur, acc) from by
          simp [batchParseStep, hr', hb]]
        rw [ih, batchConfirmed_cons_nonreport hr']
        cases hu : isHostUpLine l with
        | true =>
          have htc : truthyOpt cur = false := by
            cases htc2 : truthyOpt cur
            · rfl
            · rw [hu, htc2] at hb
              exact Bool.noConfusion hb
          constructor
          · rintro (ha | ⟨ht, -, -⟩ | hrest)
            · exact Or.inl ha
            · rw [htc] at ht
              exact Bool.noConfusion ht
            · exact Or.inr (Or.inr hrest)
          · rintro (ha | ⟨ht, -, -⟩ | hrest)
            · exact Or.inl ha
            · rw [htc] at ht
              exact Bool.noConfusion ht
            · exact Or.inr (Or.inr hrest)
        | false =>
          rw [confirmFirst_cons_other hr' hu]

/-- C1: in batch list mode an address is in the live set exactly when it
is non-empty and some announcement line announcing it is followed, with
no announcement line in between, by a separate host-up confirmation line;
in particular an announced address with no confirmation before the next
announcement never appears, because the new announcement overwrites the
tracked candidate, and the candidate is reset after each confirmation. -/
theorem batch_parse_confirmation (lines : List (List Char)) (a : List Char) :
    a ∈ batchParse lines ↔ a ≠ [] ∧ BatchConfirmed lines a := by
  rw [batchParse, mem_batchParse_aux lines none [] a]
  simp [truthyOpt]

end Tsunami
